import Mathlib

/-!
Verification of `render_kinect` kinematic-state resolution
(`src/robot_state.cpp`).

This file is a shallow embedding, in Lean 4, of the kinematic-state
resolution code of the `render_kinect` repository (`src/robot_state.cpp`),
together with theorems settling the behavioural claims about it.

Conventions of the embedding:
* C++ `std::vector` becomes `List`; `std::map` iteration becomes a list
  ordered the way the map iterates (keys unique).
* KDL frames (rigid transforms) are modelled abstractly as elements of a
  (multiplicative) group `F`: composition is `*`, inversion is `⁻¹`, the
  identity frame is `1`.  All statements are parametric in `F`.
* Machinery external to the repository (the KDL chain/tree solvers, URDF
  parsing) enters only through function parameters and through explicitly
  stated hypotheses encoding the library's documented contract.
* Uninitialised C++ storage (`Eigen::VectorXd::resize`, default-constructed
  `KDL::Frame`) is modelled by explicit parameters (`g`, `dflt`) supplying
  the unspecified contents.
* Undefined behaviour (out-of-range reads, null-pointer dereference) and
  thrown exceptions are modelled by `Option`, with `none` marking the
  erroneous execution.
-/

namespace RenderKinect

/-! ## Data model

Translated from the types used by `robot_state.cpp`: URDF joints
(`urdf::Joint`), KDL segments (entries of `KDL::SegmentMap`), URDF links
(`urdf::Link`).  Only the fields the code reads are carried; in particular
the joint limit arrays (`lower_limit_`, `upper_limit_`) are populated by the
constructor but never read by any claimed operation, so they are omitted. -/

/-- `urdf::Joint::type` values. -/
inductive UrdfJointType where
  | revolute | continuous | prismatic | planar | floating | fixed | unknown
deriving DecidableEq

/-- The part of `urdf::Joint` the constructor reads: its name and type. -/
structure UrdfJoint where
  name : String
  jtype : UrdfJointType
deriving DecidableEq

/-- An entry of `KDL::SegmentMap`: segment name, the name and kind of its
joint (`jointIsNone` is true when `getJoint().getType() == KDL::Joint::None`),
and the joint's index `q_nr` into the dense joint array. -/
structure Segment where
  name : String
  jointName : String
  jointIsNone : Bool
  q_nr : Nat
deriving DecidableEq

/-- A `urdf::Link`: its name, parent link (`getParent()`; `none` models a
null parent pointer) and, when the link's `visual->geometry` is a
`urdf::Geometry::MESH`, the mesh filename.  `visualMesh = none` covers a null
`visual`, a null `geometry`, and a non-mesh geometry type alike, since the
code tests exactly that conjunction.  The parent chain is carried inline
(URDF guarantees the parent structure is a finite tree). -/
inductive UrdfLinkT where
  | mk (name : String) (parent : Option UrdfLinkT) (visualMesh : Option String)

/-- Segment/link name of an `UrdfLinkT`. -/
def UrdfLinkT.name : UrdfLinkT → String
  | .mk n _ _ => n

/-- Parent pointer of an `UrdfLinkT`. -/
def UrdfLinkT.parent : UrdfLinkT → Option UrdfLinkT
  | .mk _ p _ => p

/-- Mesh filename of the link's visual geometry, when it is a mesh. -/
def UrdfLinkT.visualMesh : UrdfLinkT → Option String
  | .mk _ _ v => v

/-- `frame_map_ : std::map<std::string, KDL::Frame>`, modelled by key lookup. -/
def FrameMap (F : Type) := String → Option F

/-- `frame_map_[k] = v` (insertion/overwrite through `operator[]`). -/
def FrameMap.store {F : Type} (m : FrameMap F) (k : String) (v : F) : FrameMap F :=
  fun s => if s = k then some v else m s

/-! ## Constructor: building `joint_map_` (lines 60–86) -/

/-- The filter `joint->type != urdf::Joint::UNKNOWN && joint->type !=
urdf::Joint::FIXED` from the constructor loop. -/
def movableUrdf : UrdfJointType → Bool
  | .unknown => false
  | .fixed => false
  | _ => true

/-- The constructor loop over `segment_map_`: for each segment whose KDL
joint is not `None`, look the joint up in the URDF model; a failed lookup is
the `ROS_FATAL ... return` path, modelled as `none` (construction aborted
with a partially built state); a movable joint writes its name at position
`q_nr` of `joint_map_`. -/
def buildJointMapGo (getJoint : String → Option UrdfJoint) :
    List Segment → List String → Option (List String)
  | [], jm => some jm
  | seg :: rest, jm =>
    if seg.jointIsNone then buildJointMapGo getJoint rest jm
    else
      match getJoint seg.jointName with
      | none => none
      | some j =>
        if movableUrdf j.jtype then
          buildJointMapGo getJoint rest (jm.set seg.q_nr j.name)
        else buildJointMapGo getJoint rest jm

/-- `joint_map_`: resized to `n = kin_tree_.getNrOfJoints()` (default-constructed
empty strings), then filled by the constructor loop. -/
def buildJointMap (getJoint : String → Option UrdfJoint) (segs : List Segment)
    (n : Nat) : Option (List String) :=
  buildJointMapGo getJoint segs (List.replicate n "")

/-- `RobotState::GetJointIndex` (lines 264–270): first index of `name` in
`joint_map_`, `-1` when absent. -/
def GetJointIndex : List String → String → Int
  | [], _ => -1
  | x :: xs, name =>
    if x = name then 0
    else
      let r := GetJointIndex xs name
      if r < 0 then -1 else r + 1

/-! ## `GetInitialJoints` (lines 244–262) -/

/-- The `ROS_ERROR("i: %d, No joint index for %s", ...)` report: the input
position and the joint name that had no index. -/
structure JointLookupError where
  position : Nat
  name : String
deriving DecidableEq

/-- The loop of `GetInitialJoints`: walk the update entries carrying the
iterator offset `p = jnt - state.position.begin()`; a valid index writes the
value into the dense vector, an invalid one records the error report and
leaves the vector alone. -/
def GetInitialJointsGo (jm : List String) :
    Nat → List (String × ℚ) → List ℚ → List ℚ × List JointLookupError
  | _, [], v => (v, [])
  | p, (name, val) :: rest, v =>
    let idx := GetJointIndex jm name
    if 0 ≤ idx then
      GetInitialJointsGo jm (p + 1) rest (v.set idx.toNat val)
    else
      let r := GetInitialJointsGo jm (p + 1) rest v
      (r.1, ⟨p, name⟩ :: r.2)

/-- `RobotState::GetInitialJoints`: `jnt_angles.resize(num_joints())` leaves
the coefficients uninitialised (Eigen `resize` does not zero new storage);
the unspecified contents are supplied by `g`.  Then the update entries are
merged in by the loop. -/
def GetInitialJoints (jm : List String) (n : Nat) (g : Nat → ℚ)
    (update : List (String × ℚ)) : List ℚ × List JointLookupError :=
  GetInitialJointsGo jm 0 update ((List.range n).map g)

/-- The effect of `InitKDLData` (lines 169–180) on the persistent joint
array: `jnt_array_.data = jnt_angles` replaces the stored vector wholesale
with the freshly built local one; the previous contents `_prev` are
discarded, never merged. -/
def InitKDLDataJnt (jm : List String) (n : Nat) (g : Nat → ℚ)
    (_prev : List ℚ) (update : List (String × ℚ)) : List ℚ :=
  (GetInitialJoints jm n g update).1

/-! ## `SetCameraTransform` (lines 182–207): chain joint extraction -/

/-- The reads `jnt_array_(location - joint_map_.begin())` performed by
`SetCameraTransform`, one per chain segment with a non-`None` joint.  When
`std::find` fails, `location - begin = joint_map_.size()`; the code logs
`ROS_ERROR("Joint in chain not in JointState. This should never happen.")`
and performs the read anyway.  A read is modelled with `List.get?`, so
`none` marks an out-of-range access of the dense array. -/
def chainReads (chain : List Segment) (jm : List String) (jnt : List ℚ) :
    List (Option ℚ) :=
  (chain.filter (fun s => !s.jointIsNone)).map (fun s =>
    jnt.get? (jm.findIdx (fun x => x = s.jointName)))

/-! ## `ComputeLinkTransforms` (lines 209–226) -/

/-- `RobotState::ComputeLinkTransforms`, parametric in the KDL tree solver.
For every segment of `segment_map_` whose name occurs in `part_mesh_map_`,
the code declares a local `KDL::Frame frame`, calls
`tree_solver_->JntToCart(jnt_array_, frame, name)`, logs a `ROS_ERROR` when
the call returns a negative code, and then — unconditionally, error or not —
stores `frame_map_[name] = cam_frame_ * frame`.  The solver is modelled as
`tree_solver : List ℚ → String → Option F` (`none` = negative return code,
in which case `frame` keeps its default-constructed, unspecified contents
`dflt`).  The second component collects the names for which an error was
logged. -/
def ComputeLinkTransformsGo {F : Type} [Group F]
    (tree_solver : List ℚ → String → Option F) (dflt : F)
    (pmm : List String) (jnt : List ℚ) (cam : F) :
    List Segment → FrameMap F × List String → FrameMap F × List String
  | [], acc => acc
  | seg :: rest, acc =>
    ComputeLinkTransformsGo tree_solver dflt pmm jnt cam rest
      (if seg.name ∈ pmm then
        match tree_solver jnt seg.name with
        | some frame => (acc.1.store seg.name (cam * frame), acc.2)
        | none => (acc.1.store seg.name (cam * dflt), acc.2 ++ [seg.name])
      else acc)

/-- The whole loop, started on the current `frame_map_` with no errors
logged yet. -/
def ComputeLinkTransforms {F : Type} [Group F]
    (tree_solver : List ℚ → String → Option F) (dflt : F)
    (segs : List Segment) (pmm : List String) (jnt : List ℚ) (cam : F)
    (fm : FrameMap F) : FrameMap F × List String :=
  ComputeLinkTransformsGo tree_solver dflt pmm jnt cam segs (fm, [])

/-! ## `GetPartMeshPaths` (lines 108–142) -/

/-- The extension test `filename.substr(filename.size()-4, 4) == ".stl" ||
... == ".dae"`. -/
def extOk (fn : String) : Bool :=
  fn.takeRight 4 = ".stl" || fn.takeRight 4 = ".dae"

/-- The `while (tmp_link->name.compare(global_root) != 0) tmp_link =
tmp_link->getParent();` loop.  The loop's only exit is reaching a link named
`global_root`; following a null parent pointer (`none`) dereferences null,
modelled by the `none` result.  (The comparison against
`tf_correction_root_` is commented out in the source.) -/
def walkToRoot (globalRoot : String) : UrdfLinkT → Option UrdfLinkT
  | .mk n p v =>
    if n = globalRoot then some (.mk n p v)
    else
      match p with
      | none => none
      | some parent => walkToRoot globalRoot parent

/-- `RobotState::GetPartMeshPaths`: for each link of `urdf_.getLinks()`, walk
to the global root, then, if the reached link's visual geometry is a mesh
whose filename ends in a recognised extension, push the filename onto
`part_mesh_paths` and the reached link's name onto `part_mesh_map_`.
A `none` result models undefined behaviour / an exception escaping the
function: a null-parent dereference in the walk, or `std::string::substr`
throwing on a filename shorter than four characters. -/
def GetPartMeshPathsGo (globalRoot : String) :
    List UrdfLinkT → List String × List String →
    Option (List String × List String)
  | [], acc => some acc
  | l :: rest, acc =>
    match walkToRoot globalRoot l with
    | none => none
    | some t =>
      match t.visualMesh with
      | none => GetPartMeshPathsGo globalRoot rest acc
      | some fn =>
        if fn.length < 4 then none
        else if extOk fn then
          GetPartMeshPathsGo globalRoot rest (acc.1 ++ [fn], acc.2 ++ [t.name])
        else GetPartMeshPathsGo globalRoot rest acc

/-- The whole loop, started with both output lists empty. -/
def GetPartMeshPaths (links : List UrdfLinkT) (globalRoot : String) :
    Option (List String × List String) :=
  GetPartMeshPathsGo globalRoot links ([], [])

/-- Whether a link's parent chain reaches a link named `root` (the
connectivity the URDF model guarantees for every link).  Used only to state
hypotheses; not part of the embedded code. -/
def reachesRoot (root : String) : UrdfLinkT → Bool
  | .mk n p _ =>
    if n = root then true
    else
      match p with
      | none => false
      | some parent => reachesRoot root parent

/-! ## `GetTransforms` (lines 145–167) -/

/-- The mutable members of `RobotState` that a resolution call touches,
together with the immutable topology data fixed at construction. -/
structure RobotStateM (F : Type) where
  segment_map : List Segment
  joint_map : List String
  part_mesh_map : List String
  base_2_cam : List Segment
  jnt_array : List ℚ
  cam_frame : F
  frame_map : FrameMap F

/-- The loop body of `GetTransforms` acting on the *local copy* of the
out-parameter: `push_back` appends, after the copied-in caller contents, one
transform per `segment_map_` entry whose name occurs in `part_mesh_map_`.
`frame_map_[name]` through `operator[]` default-constructs a frame when the
key is absent; `mapDflt` supplies that unspecified value. -/
def GetTransformsLocal {F : Type} (segs : List Segment) (pmm : List String)
    (fm : FrameMap F) (mapDflt : F) (callerCopy : List F) : List F :=
  segs.foldl (fun acc seg =>
    if seg.name ∈ pmm then acc ++ [(fm seg.name).getD mapDflt] else acc)
    callerCopy

/-- One full resolution call, `RobotState::GetTransforms`: run `InitKDLData`
(rebuild the dense joint vector, solve the camera chain, recompute the frame
map) and then fill the transform vector.  The parameter `current_tfs` is
declared **by value** (`std::vector<Eigen::Affine3d> current_tfs`, no
reference), so the loop fills a local copy; the caller's vector is returned
unchanged as the second component, and the discarded local copy is the third
component.  `chainSolve` abstracts `KDL::ChainFkSolverPos_recursive` applied
to the extracted chain array. -/
def GetTransformsRun {F : Type} [Group F]
    (tree_solver : List ℚ → String → Option F)
    (chainSolve : List (Option ℚ) → F) (g : Nat → ℚ) (dflt mapDflt : F)
    (st : RobotStateM F) (update : List (String × ℚ)) (callerVec : List F) :
    RobotStateM F × List F × List F :=
  let jnt := (GetInitialJoints st.joint_map st.joint_map.length g update).1
  let cam := chainSolve (chainReads st.base_2_cam st.joint_map jnt)
  let fm := (ComputeLinkTransforms tree_solver dflt st.segment_map
      st.part_mesh_map jnt cam st.frame_map).1
  let localVec := GetTransformsLocal st.segment_map st.part_mesh_map fm
      mapDflt callerVec
  ({ st with jnt_array := jnt, cam_frame := cam, frame_map := fm },
   callerVec, localVec)

/-! ## Helper used only to state claims about error reports -/

/-- Pair each update entry with its input position, starting from `p`. -/
def enumFromQ : Nat → List (String × ℚ) → List (Nat × String × ℚ)
  | _, [] => []
  | p, e :: rest => (p, e) :: enumFromQ (p + 1) rest

/-- Whether the constructor loop writes a `joint_map_` entry for a segment:
its KDL joint is not `None` and the URDF joint it resolves to is movable. -/
def writesEntry (getJoint : String → Option UrdfJoint) (s : Segment) : Bool :=
  !s.jointIsNone &&
    (match getJoint s.jointName with
     | some j => movableUrdf j.jtype
     | none => false)

/-! ## Concrete instances used by the counterexamples and witnesses -/

/-- A root link carrying no visual mesh. -/
def baseLink : UrdfLinkT := .mk "base" none none

/-- An intermediate link below `baseLink` carrying a `.stl` mesh. -/
def meshMid : UrdfLinkT := .mk "P" (some baseLink) (some "p.stl")

/-- A leaf link below `meshMid` with no mesh of its own. -/
def leafLink : UrdfLinkT := .mk "L" (some meshMid) none

/-- A root link that itself carries a `.stl` mesh. -/
def meshRoot : UrdfLinkT := .mk "base" none (some "m.stl")

/-- A child of `meshRoot` with no mesh of its own. -/
def meshChild : UrdfLinkT := .mk "child" (some meshRoot) none

/-- A parentless link that is not the global root. -/
def orphanLink : UrdfLinkT := .mk "orphan" none none

/-- A link with a mesh whose parent chain ends at `orphanLink`,
never reaching the global root. -/
def strandedLink : UrdfLinkT := .mk "D" (some orphanLink) (some "d.stl")

/-- A two-joint URDF model: `j0` revolute, `j1` prismatic. -/
def demoGetJoint : String → Option UrdfJoint := fun s =>
  if s = "j0" then some ⟨"j0", UrdfJointType.revolute⟩
  else if s = "j1" then some ⟨"j1", UrdfJointType.prismatic⟩
  else none

/-- Segment map matching `demoGetJoint`: two movable segments and one
fixed (`None`-jointed) segment. -/
def demoSegs : List Segment :=
  [⟨"seg0", "j0", false, 0⟩, ⟨"seg1", "j1", false, 1⟩, ⟨"segf", "jf", true, 0⟩]

/-! ## Lemmas about `GetJointIndex` -/

/-- A non-negative result of `GetJointIndex` is a valid index into
`joint_map_`. -/
theorem getJointIndex_toNat_lt : ∀ (jm : List String) (name : String),
    0 ≤ GetJointIndex jm name → (GetJointIndex jm name).toNat < jm.length
  | [], name, h => by simp [GetJointIndex] at h
  | x :: xs, name, h => by
    by_cases hx : x = name
    · simp [GetJointIndex, hx]
    · have ih := getJointIndex_toNat_lt xs name
      simp only [GetJointIndex, if_neg hx] at h ⊢
      by_cases hr : GetJointIndex xs name < 0
      · rw [if_pos hr] at h; omega
      · rw [if_neg hr] at h ⊢
        have := ih (by omega)
        simp only [List.length_cons]
        omega

/-- On a duplicate-free `joint_map_`, looking up the name stored at index
`i` returns `i` again: `GetJointIndex` inverts positional lookup. -/
theorem getJointIndex_get : ∀ (jm : List String), jm.Nodup →
    ∀ (i : Nat) (h : i < jm.length), GetJointIndex jm (jm.get ⟨i, h⟩) = i
  | [], _, i, h => absurd h (by simp)
  | x :: xs, hnd, 0, h => by simp [GetJointIndex]
  | x :: xs, hnd, i + 1, h => by
    have hx : x ∉ xs := (List.nodup_cons.mp hnd).1
    have hmem : xs.get ⟨i, by simpa using h⟩ ∈ xs := List.get_mem _ _ _
    have hne : x ≠ xs.get ⟨i, by simpa using h⟩ := fun he => hx (he ▸ hmem)
    have ih := getJointIndex_get xs (List.nodup_cons.mp hnd).2 i (by simpa using h)
    simp only [GetJointIndex, List.get_cons_succ, if_neg hne, ih]
    omega

/-! ## Lemmas about `GetInitialJoints` -/

/-- The loop never changes the dense vector's length. -/
theorem getInitialJointsGo_length (jm : List String) :
    ∀ (u : List (String × ℚ)) (p : Nat) (v : List ℚ),
      (GetInitialJointsGo jm p u v).1.length = v.length
  | [], _, _ => rfl
  | (name, val) :: rest, p, v => by
    rw [GetInitialJointsGo]
    by_cases hidx : 0 ≤ GetJointIndex jm name
    · rw [if_pos hidx, getInitialJointsGo_length jm rest]
      simp
    · rw [if_neg hidx]
      exact getInitialJointsGo_length jm rest (p + 1) v

/-- The reported errors are exactly the update entries whose joint name has
no index, each tagged with its input position. -/
theorem getInitialJointsGo_errors (jm : List String) :
    ∀ (u : List (String × ℚ)) (p : Nat) (v : List ℚ),
      (GetInitialJointsGo jm p u v).2
        = (enumFromQ p u).filterMap (fun e =>
            if GetJointIndex jm e.2.1 < 0 then some ⟨e.1, e.2.1⟩ else none)
  | [], _, _ => rfl
  | (name, val) :: rest, p, v => by
    rw [GetInitialJointsGo, enumFromQ, List.filterMap_cons]
    by_cases hidx : 0 ≤ GetJointIndex jm name
    · have : ¬ GetJointIndex jm name < 0 := by omega
      simp only [if_pos hidx, this, if_false]
      exact getInitialJointsGo_errors jm rest (p + 1) _
    · have : GetJointIndex jm name < 0 := by omega
      simp only [if_neg hidx, this, if_true]
      rw [getInitialJointsGo_errors jm rest (p + 1) v]

/-- A dense-vector entry no update entry resolves to is left unchanged by
the loop. -/
theorem getInitialJointsGo_get_not_written (jm : List String) :
    ∀ (u : List (String × ℚ)) (p : Nat) (v : List ℚ) (i : Nat),
      (∀ e ∈ u, 0 ≤ GetJointIndex jm e.1 → (GetJointIndex jm e.1).toNat ≠ i) →
      (GetInitialJointsGo jm p u v).1.get? i = v.get? i
  | [], _, _, _, _ => rfl
  | (name, val) :: rest, p, v, i, habs => by
    rw [GetInitialJointsGo]
    by_cases hidx : 0 ≤ GetJointIndex jm name
    · rw [if_pos hidx]
      rw [getInitialJointsGo_get_not_written jm rest (p + 1) _ i
        (fun e he => habs e (List.mem_cons_of_mem _ he))]
      exact List.get?_set_ne _ _ (habs (name, val) (List.mem_cons_self _ _) hidx)
    · rw [if_neg hidx]
      exact getInitialJointsGo_get_not_written jm rest (p + 1) v i
        (fun e he => habs e (List.mem_cons_of_mem _ he))

/-- An update entry with a valid joint index takes effect: provided no
later entry resolves to the same index, the final dense vector holds its
value at that index. -/
theorem getInitialJointsGo_get_written (jm : List String) :
    ∀ (u₁ : List (String × ℚ)) (p : Nat) (name : String) (val : ℚ)
      (u₂ : List (String × ℚ)) (v : List ℚ),
      0 ≤ GetJointIndex jm name →
      (GetJointIndex jm name).toNat < v.length →
      (∀ e ∈ u₂, 0 ≤ GetJointIndex jm e.1 →
        (GetJointIndex jm e.1).toNat ≠ (GetJointIndex jm name).toNat) →
      (GetInitialJointsGo jm p (u₁ ++ (name, val) :: u₂) v).1.get?
          (GetJointIndex jm name).toNat = some val
  | [], p, name, val, u₂, v, hidx, hlt, hlater => by
    rw [List.nil_append, GetInitialJointsGo, if_pos hidx]
    rw [getInitialJointsGo_get_not_written jm u₂ (p + 1) _ _ hlater]
    exact List.get?_set_eq_of_lt _ (by simpa using hlt)
  | (n₀, v₀) :: u₁, p, name, val, u₂, v, hidx, hlt, hlater => by
    rw [List.cons_append, GetInitialJointsGo]
    by_cases h₀ : 0 ≤ GetJointIndex jm n₀
    · rw [if_pos h₀]
      exact getInitialJointsGo_get_written jm u₁ (p + 1) name val u₂ _ hidx
        (by simpa using hlt) hlater
    · rw [if_neg h₀]
      exact getInitialJointsGo_get_written jm u₁ (p + 1) name val u₂ v hidx
        hlt hlater

/-! ## Lemmas about `ComputeLinkTransforms` -/

/-- Looking a stored key up. -/
theorem FrameMap.store_self {F : Type} (m : FrameMap F) (k : String) (v : F) :
    (m.store k v) k = some v := by simp [FrameMap.store]

/-- Looking another key up. -/
theorem FrameMap.store_other {F : Type} (m : FrameMap F) (k x : String) (v : F)
    (h : x ≠ k) : (m.store k v) x = m x := by simp [FrameMap.store, h]

/-- A key no tracked segment carries is left unchanged by the loop. -/
theorem computeLinkTransformsGo_get_not_tracked {F : Type} [Group F]
    (tree_solver : List ℚ → String → Option F) (dflt : F)
    (pmm : List String) (jnt : List ℚ) (cam : F) :
    ∀ (segs : List Segment) (acc : FrameMap F × List String) (x : String),
      (∀ seg ∈ segs, seg.name ∈ pmm → seg.name ≠ x) →
      (ComputeLinkTransformsGo tree_solver dflt pmm jnt cam segs acc).1 x = acc.1 x
  | [], _, _, _ => rfl
  | seg :: rest, acc, x, habs => by
    rw [ComputeLinkTransformsGo]
    rw [computeLinkTransformsGo_get_not_tracked tree_solver dflt pmm jnt cam rest _
      x (fun s hs => habs s (List.mem_cons_of_mem _ hs))]
    by_cases hp : seg.name ∈ pmm
    · have hne : x ≠ seg.name := fun he => habs seg (List.mem_cons_self _ _) hp he.symm
      rw [if_pos hp]
      match tree_solver jnt seg.name with
      | some frame => exact FrameMap.store_other _ _ _ _ hne
      | none => exact FrameMap.store_other _ _ _ _ hne
    · rw [if_neg hp]

/-- What the loop stores for a tracked segment: `cam_frame_` composed with
the tree-solver result (or with the default-constructed frame when the
solver failed) — stored **whether or not** the solver reported an error. -/
theorem computeLinkTransformsGo_get_tracked {F : Type} [Group F]
    (tree_solver : List ℚ → String → Option F) (dflt : F)
    (pmm : List String) (jnt : List ℚ) (cam : F) :
    ∀ (segs : List Segment) (acc : FrameMap F × List String) (seg : Segment),
      seg ∈ segs → (segs.map Segment.name).Nodup → seg.name ∈ pmm →
      (ComputeLinkTransformsGo tree_solver dflt pmm jnt cam segs acc).1 seg.name
        = some (cam * ((tree_solver jnt seg.name).getD dflt))
  | [], _, seg, hmem, _, _ => absurd hmem (by simp)
  | s₀ :: rest, acc, seg, hmem, hnd, hp => by
    rcases List.mem_cons.mp hmem with rfl | hrest
    · rw [ComputeLinkTransformsGo]
      have habs : ∀ s ∈ rest, s.name ∈ pmm → s.name ≠ seg.name := by
        intro s hs _ he
        exact (List.nodup_cons.mp (by simpa using hnd)).1
          (he ▸ List.mem_map_of_mem Segment.name hs)
      rw [computeLinkTransformsGo_get_not_tracked tree_solver dflt pmm jnt cam
        rest _ seg.name habs, if_pos hp]
      match tree_solver jnt seg.name with
      | some frame => exact FrameMap.store_self _ _ _
      | none => exact FrameMap.store_self _ _ _
    · rw [ComputeLinkTransformsGo]
      exact computeLinkTransformsGo_get_tracked tree_solver dflt pmm jnt cam
        rest _ seg hrest (by simpa using (List.nodup_cons.mp (by simpa using hnd)).2) hp

/-- Already-logged solver errors survive the rest of the loop. -/
theorem computeLinkTransformsGo_errors_mono {F : Type} [Group F]
    (tree_solver : List ℚ → String → Option F) (dflt : F)
    (pmm : List String) (jnt : List ℚ) (cam : F) :
    ∀ (segs : List Segment) (acc : FrameMap F × List String) (e : String),
      e ∈ acc.2 →
      e ∈ (ComputeLinkTransformsGo tree_solver dflt pmm jnt cam segs acc).2
  | [], _, _, he => he
  | seg :: rest, acc, e, he => by
    rw [ComputeLinkTransformsGo]
    apply computeLinkTransformsGo_errors_mono tree_solver dflt pmm jnt cam rest
    by_cases hp : seg.name ∈ pmm
    · rw [if_pos hp]
      match tree_solver jnt seg.name with
      | some frame => exact he
      | none => exact List.mem_append_left _ he
    · rwa [if_neg hp]

/-- A tracked segment on which the tree solver fails is reported. -/
theorem computeLinkTransformsGo_error_reported {F : Type} [Group F]
    (tree_solver : List ℚ → String → Option F) (dflt : F)
    (pmm : List String) (jnt : List ℚ) (cam : F) :
    ∀ (segs : List Segment) (acc : FrameMap F × List String) (seg : Segment),
      seg ∈ segs → seg.name ∈ pmm → tree_solver jnt seg.name = none →
      seg.name ∈ (ComputeLinkTransformsGo tree_solver dflt pmm jnt cam segs acc).2
  | [], _, seg, hmem, _, _ => absurd hmem (by simp)
  | s₀ :: rest, acc, seg, hmem, hp, hfail => by
    rcases List.mem_cons.mp hmem with rfl | hrest
    · rw [ComputeLinkTransformsGo, if_pos hp, hfail]
      exact computeLinkTransformsGo_errors_mono tree_solver dflt pmm jnt cam rest _
        seg.name (List.mem_append_right _ (List.mem_singleton_self _))
    · rw [ComputeLinkTransformsGo]
      exact computeLinkTransformsGo_error_reported tree_solver dflt pmm jnt cam
        rest _ seg hrest hp hfail

/-! ## Lemmas about `GetTransformsLocal` and the walk to the root -/

/-- The local copy's final contents: the copied-in caller contents followed
by one transform per tracked `segment_map_` entry, in `segment_map_`
iteration order. -/
theorem getTransformsLocal_eq {F : Type} (pmm : List String)
    (fm : FrameMap F) (mapDflt : F) :
    ∀ (segs : List Segment) (caller : List F),
      GetTransformsLocal segs pmm fm mapDflt caller
        = caller ++ (segs.filter (fun s => decide (s.name ∈ pmm))).map
            (fun s => (fm s.name).getD mapDflt)
  | [], caller => by simp [GetTransformsLocal]
  | seg :: rest, caller => by
    have ih₁ := getTransformsLocal_eq pmm fm mapDflt rest
      (caller ++ [(fm seg.name).getD mapDflt])
    have ih₂ := getTransformsLocal_eq pmm fm mapDflt rest caller
    rw [GetTransformsLocal] at ih₁ ih₂ ⊢
    rw [List.foldl_cons, List.filter_cons]
    by_cases hp : seg.name ∈ pmm
    · rw [if_pos hp, ih₁, decide_eq_true hp, if_pos rfl, List.map_cons]
      simp
    · rw [if_neg hp, ih₂, decide_eq_false hp, if_neg (by simp)]

/-- The walk's only exit is a link whose name is the global root. -/
theorem walkToRoot_name (globalRoot : String) :
    ∀ (l t : UrdfLinkT), walkToRoot globalRoot l = some t → t.name = globalRoot
  | .mk n p v, t, h => by
    rw [walkToRoot.eq_def] at h
    dsimp only at h
    by_cases hn : n = globalRoot
    · rw [if_pos hn] at h
      cases h
      simpa [UrdfLinkT.name] using hn
    · rw [if_neg hn] at h
      match p, h with
      | some parent, h => exact walkToRoot_name globalRoot parent t h

/-- A link whose parent chain reaches the global root walks successfully
(and in particular the walk terminates without touching a null parent). -/
theorem walkToRoot_of_reachesRoot (globalRoot : String) :
    ∀ (l : UrdfLinkT), reachesRoot globalRoot l = true →
      (walkToRoot globalRoot l).isSome = true
  | .mk n p v, h => by
    rw [reachesRoot.eq_def] at h
    rw [walkToRoot.eq_def]
    dsimp only at h ⊢
    by_cases hn : n = globalRoot
    · rw [if_pos hn]; rfl
    · rw [if_neg hn] at h ⊢
      match p, h with
      | some parent, h => exact walkToRoot_of_reachesRoot globalRoot parent h

/-- Every key `GetPartMeshPaths` records is the name of the link the walk
stopped at, which is always the global root. -/
theorem getPartMeshPathsGo_keys (globalRoot : String) :
    ∀ (links : List UrdfLinkT) (acc : List String × List String)
      (r : List String × List String),
      GetPartMeshPathsGo globalRoot links acc = some r →
      (∀ k ∈ acc.2, k = globalRoot) → ∀ k ∈ r.2, k = globalRoot
  | [], acc, r, h, hacc => by cases h; exact hacc
  | l :: rest, acc, r, h, hacc => by
    rw [GetPartMeshPathsGo] at h
    cases hw : walkToRoot globalRoot l with
    | none => simp only [hw] at h; cases h
    | some t =>
      simp only [hw] at h
      have hname : t.name = globalRoot := walkToRoot_name globalRoot l t hw
      cases hv : t.visualMesh with
      | none =>
        simp only [hv] at h
        exact getPartMeshPathsGo_keys globalRoot rest acc r h hacc
      | some fn =>
        simp only [hv] at h
        by_cases hlen : fn.length < 4
        · rw [if_pos hlen] at h; cases h
        · rw [if_neg hlen] at h
          by_cases hext : extOk fn = true
          · rw [if_pos hext] at h
            refine getPartMeshPathsGo_keys globalRoot rest _ r h ?_
            intro k hk
            rcases List.mem_append.mp hk with hk | hk
            · exact hacc k hk
            · rw [List.mem_singleton.mp hk]; exact hname
          · rw [if_neg hext] at h
            exact getPartMeshPathsGo_keys globalRoot rest acc r h hacc

/-! ## Lemmas about the constructor's `joint_map_` -/

/-- The constructor loop succeeds when every non-`None` joint resolves in
the URDF model (otherwise the `ROS_FATAL` abort path is taken). -/
theorem buildJointMapGo_isSome (getJoint : String → Option UrdfJoint) :
    ∀ (segs : List Segment) (jm : List String),
      (∀ s ∈ segs, s.jointIsNone = false → (getJoint s.jointName).isSome = true) →
      (buildJointMapGo getJoint segs jm).isSome = true
  | [], _, _ => rfl
  | seg :: rest, jm, hres => by
    rw [buildJointMapGo]
    by_cases hnone : seg.jointIsNone
    · rw [if_pos hnone]
      exact buildJointMapGo_isSome getJoint rest jm
        (fun s hs => hres s (List.mem_cons_of_mem _ hs))
    · rw [if_neg hnone]
      have := hres seg (List.mem_cons_self _ _) (by simpa using hnone)
      cases hj : getJoint seg.jointName with
      | none => rw [hj] at this; cases this
      | some j =>
        dsimp only
        by_cases hmv : movableUrdf j.jtype
        · rw [if_pos hmv]
          exact buildJointMapGo_isSome getJoint rest _
            (fun s hs => hres s (List.mem_cons_of_mem _ hs))
        · rw [if_neg hmv]
          exact buildJointMapGo_isSome getJoint rest jm
            (fun s hs => hres s (List.mem_cons_of_mem _ hs))

/-- The loop never changes `joint_map_`'s length. -/
theorem buildJointMapGo_length (getJoint : String → Option UrdfJoint) :
    ∀ (segs : List Segment) (jm jm' : List String),
      buildJointMapGo getJoint segs jm = some jm' → jm'.length = jm.length
  | [], jm, jm', h => by cases h; rfl
  | seg :: rest, jm, jm', h => by
    rw [buildJointMapGo] at h
    by_cases hnone : seg.jointIsNone
    · rw [if_pos hnone] at h
      exact buildJointMapGo_length getJoint rest jm jm' h
    · rw [if_neg hnone] at h
      cases hj : getJoint seg.jointName with
      | none => rw [hj] at h; cases h
      | some j =>
        rw [hj] at h
        dsimp only at h
        by_cases hmv : movableUrdf j.jtype
        · rw [if_pos hmv] at h
          rw [buildJointMapGo_length getJoint rest _ jm' h]
          simp
        · rw [if_neg hmv] at h
          exact buildJointMapGo_length getJoint rest jm jm' h

/-- A `joint_map_` position no (writing) segment is numbered with is left
unchanged by the loop. -/
theorem buildJointMapGo_get_not_written (getJoint : String → Option UrdfJoint) :
    ∀ (segs : List Segment) (jm jm' : List String) (i : Nat),
      buildJointMapGo getJoint segs jm = some jm' →
      (∀ s ∈ segs, writesEntry getJoint s = true → s.q_nr ≠ i) →
      jm'.get? i = jm.get? i
  | [], jm, jm', i, h, _ => by cases h; rfl
  | seg :: rest, jm, jm', i, h, habs => by
    rw [buildJointMapGo] at h
    by_cases hnone : seg.jointIsNone
    · rw [if_pos hnone] at h
      exact buildJointMapGo_get_not_written getJoint rest jm jm' i h
        (fun s hs => habs s (List.mem_cons_of_mem _ hs))
    · rw [if_neg hnone] at h
      cases hj : getJoint seg.jointName with
      | none => rw [hj] at h; cases h
      | some j =>
        rw [hj] at h
        dsimp only at h
        by_cases hmv : movableUrdf j.jtype
        · rw [if_pos hmv] at h
          have hw : writesEntry getJoint seg = true := by
            simp [writesEntry, hnone, hj, hmv]
          rw [buildJointMapGo_get_not_written getJoint rest _ jm' i h
            (fun s hs => habs s (List.mem_cons_of_mem _ hs))]
          exact List.get?_set_ne _ _ (habs seg (List.mem_cons_self _ _) hw)
        · rw [if_neg hmv] at h
          exact buildJointMapGo_get_not_written getJoint rest jm jm' i h
            (fun s hs => habs s (List.mem_cons_of_mem _ hs))

/-- A writing segment's joint name ends up at position `q_nr` of
`joint_map_`, provided segment entries are pairwise distinct, no other
writing segment shares its `q_nr`, and name lookup in the URDF model
returns the joint stored under that name. -/
theorem buildJointMapGo_get_written (getJoint : String → Option UrdfJoint)
    (hname : ∀ x j, getJoint x = some j → j.name = x) :
    ∀ (segs : List Segment) (jm jm' : List String) (s : Segment),
      buildJointMapGo getJoint segs jm = some jm' →
      segs.Nodup → s ∈ segs → writesEntry getJoint s = true →
      (∀ t ∈ segs, writesEntry getJoint t = true → t.q_nr = s.q_nr → t = s) →
      s.q_nr < jm.length →
      jm'.get? s.q_nr = some s.jointName
  | [], jm, jm', s, h, _, hmem, _, _, _ => absurd hmem (by simp)
  | seg :: rest, jm, jm', s, h, hnd, hmem, hw, huniq, hlt => by
    rw [buildJointMapGo] at h
    rcases List.mem_cons.mp hmem with rfl | hrest
    · have hnone : ¬ s.jointIsNone := by
        intro hx
        rw [writesEntry, hx] at hw
        simp at hw
      rw [if_neg hnone] at h
      cases hj : getJoint s.jointName with
      | none => rw [hj] at h; cases h
      | some j =>
        rw [hj] at h
        dsimp only at h
        have hmv : movableUrdf j.jtype = true := by
          rw [writesEntry, hj] at hw
          dsimp only at hw
          exact ((Bool.and_eq_true _ _).mp hw).2
        rw [if_pos hmv] at h
        have habs : ∀ t ∈ rest, writesEntry getJoint t = true → t.q_nr ≠ s.q_nr := by
          intro t ht htw he
          have : t = s := huniq t (List.mem_cons_of_mem _ ht) htw he
          exact (List.nodup_cons.mp hnd).1 (this ▸ ht)
        rw [buildJointMapGo_get_not_written getJoint rest _ jm' s.q_nr h habs]
        rw [List.get?_set_eq_of_lt _ (by simpa using hlt)]
        rw [hname s.jointName j hj]
    · have hne : seg ≠ s := by
        intro he
        exact (List.nodup_cons.mp hnd).1 (he ▸ hrest)
      by_cases hnone : seg.jointIsNone
      · rw [if_pos hnone] at h
        exact buildJointMapGo_get_written getJoint hname rest jm jm' s h
          (List.nodup_cons.mp hnd).2 hrest hw
          (fun t ht htw he => huniq t (List.mem_cons_of_mem _ ht) htw he) hlt
      · rw [if_neg hnone] at h
        cases hj : getJoint seg.jointName with
        | none => rw [hj] at h; cases h
        | some j =>
          rw [hj] at h
          dsimp only at h
          by_cases hmv : movableUrdf j.jtype
          · rw [if_pos hmv] at h
            exact buildJointMapGo_get_written getJoint hname rest _ jm' s h
              (List.nodup_cons.mp hnd).2 hrest hw
              (fun t ht htw he => huniq t (List.mem_cons_of_mem _ ht) htw he)
              (by simpa using hlt)
          · rw [if_neg hmv] at h
            exact buildJointMapGo_get_written getJoint hname rest jm jm' s h
              (List.nodup_cons.mp hnd).2 hrest hw
              (fun t ht htw he => huniq t (List.mem_cons_of_mem _ ht) htw he) hlt

/-! ## The claims -/

/-- **C1.** For every resolution call and every tracked link key, the
transform stored in the FrameMap for that link equals
`invert(root_to_sensor) * root_to_link`, where `root_to_sensor` is the
chain-solver input chain's root-to-sensor transform and `root_to_link` is
the tree-solver result for that link; the FrameMap is keyed by link name.

Here `camPath` is the list of segment poses along the path from the
kinematic root (`BASE`) to the camera frame at the current joint state, so
`camPath.prod` is `root_to_sensor`.  The constructor builds `base_2_cam_`
with `kin_tree_.getChain(cam_frame, base_frame, ...)`, i.e. **from the
camera frame to the base**, so the chain the solver composes consists of
the inverted path poses in reverse order; `hcam` states exactly that KDL
contract for the value `cam_frame_` the code multiplies with. -/
theorem C1_sensor_to_link_composition {F : Type} [Group F]
    (tree_solver : List ℚ → String → Option F) (dflt : F)
    (segs : List Segment) (pmm : List String) (jnt : List ℚ)
    (fm : FrameMap F) (camPath : List F) (cam : F) (seg : Segment) (r2l : F)
    (hnd : (segs.map Segment.name).Nodup)
    (hmem : seg ∈ segs) (htracked : seg.name ∈ pmm)
    (hsolve : tree_solver jnt seg.name = some r2l)
    (hcam : cam = ((camPath.map (fun x => x⁻¹)).reverse).prod) :
    (ComputeLinkTransforms tree_solver dflt segs pmm jnt cam fm).1 seg.name
      = some ((camPath.prod)⁻¹ * r2l) := by
  rw [ComputeLinkTransforms,
    computeLinkTransformsGo_get_tracked tree_solver dflt pmm jnt cam segs _
      seg hmem hnd htracked, hsolve, hcam, ← List.prod_inv_reverse]
  rfl

/-- Witness for C1 in the group `Multiplicative ℤ`. -/
theorem C1_sensor_to_link_composition_witness :
    (ComputeLinkTransforms (F := Multiplicative ℤ)
        (fun _ n => if n = "L" then some (Multiplicative.ofAdd 7) else none)
        1 [⟨"L", "j", true, 0⟩] ["L"] []
        ((([Multiplicative.ofAdd 2, Multiplicative.ofAdd 3].map
          (fun x => x⁻¹)).reverse).prod)
        (fun _ => none)).1 "L"
      = some ((([Multiplicative.ofAdd (2 : ℤ),
          Multiplicative.ofAdd 3].prod)⁻¹) * Multiplicative.ofAdd 7) :=
  C1_sensor_to_link_composition
    (fun _ n => if n = "L" then some (Multiplicative.ofAdd 7) else none)
    1 [⟨"L", "j", true, 0⟩] ["L"] [] (fun _ => none)
    [Multiplicative.ofAdd 2, Multiplicative.ofAdd 3] _
    ⟨"L", "j", true, 0⟩ (Multiplicative.ofAdd 7)
    (by decide) (by decide) (by decide) rfl rfl

/-- **C2 (counterexample).** The claim that the dense joint-state vector is
merge-updated in place — so that resolving `{a: 1}` then `{b: 2}` equals the
single update `{a: 1, b: 2}` — is false: `InitKDLData` rebuilds the vector
from freshly resized (unspecified-content, here all-zero) storage and
overwrites the persistent array wholesale, so the second call loses `a`'s
value. -/
theorem C2_counterexample_sequential_updates :
    InitKDLDataJnt ["a", "b"] 2 (fun _ => 0)
        (InitKDLDataJnt ["a", "b"] 2 (fun _ => 0) [0, 0] [("a", 1)]) [("b", 2)]
      = [0, 2]
  ∧ InitKDLDataJnt ["a", "b"] 2 (fun _ => 0) [0, 0] [("a", 1), ("b", 2)]
      = [1, 2]
  ∧ ([0, 2] : List ℚ) ≠ [1, 2] := by
  refine ⟨by decide, by decide, by decide⟩

/-- **C2 (amended).** Each sparse update rebuilds the dense vector from
scratch: a fresh local vector is resized (its contents `g` unspecified),
entries named in the update are written into it, and the persistent array
is then overwritten wholesale.  Hence the result is independent of the
previous persistent contents, and an index no update entry resolves to
holds the unspecified fresh value `g i`, not the previous value. -/
theorem C2_amended_wholesale_rebuild (jm : List String) (n : Nat)
    (g : Nat → ℚ) (prev prev' : List ℚ) (u : List (String × ℚ)) (i : Nat)
    (hi : i < n)
    (habsent : ∀ e ∈ u, 0 ≤ GetJointIndex jm e.1 →
      (GetJointIndex jm e.1).toNat ≠ i) :
    InitKDLDataJnt jm n g prev u = InitKDLDataJnt jm n g prev' u
  ∧ (InitKDLDataJnt jm n g prev u).get? i = some (g i) := by
  constructor
  · rfl
  · rw [InitKDLDataJnt, GetInitialJoints,
      getInitialJointsGo_get_not_written jm u 0 _ i habsent,
      List.get?_map, List.get?_range hi]
    rfl

/-- Witness for C2 (amended): previous contents `[7, 7]` versus `[]` are
irrelevant, and the entry not named in the update reads back the fresh
storage value `3`, not `7`. -/
theorem C2_amended_wholesale_rebuild_witness :
    InitKDLDataJnt ["a", "b"] 2 (fun _ => 3) [7, 7] [("b", 2)]
      = InitKDLDataJnt ["a", "b"] 2 (fun _ => 3) [] [("b", 2)]
  ∧ (InitKDLDataJnt ["a", "b"] 2 (fun _ => 3) [7, 7] [("b", 2)]).get? 0
      = some 3 := by
  apply C2_amended_wholesale_rebuild
  · decide
  · decide

/-- **C3 (counterexample).** The claim that a link whose solve fails has its
FrameMap entry left untouched (prior value kept or entry omitted) is false:
with a prior entry `ofAdd 5` stored for link `"L"` and a tree solver that
fails on it, `ComputeLinkTransforms` still overwrites the entry with
`cam_frame_ * frame = ofAdd 1 * ofAdd 1 = ofAdd 2` (where `frame` is the
default-constructed local), which is neither the prior value nor absent. -/
theorem C3_counterexample_entry_overwritten :
    (fun s => if s = "L" then some (Multiplicative.ofAdd (5 : ℤ)) else none) "L"
        = some (Multiplicative.ofAdd 5)
  ∧ (ComputeLinkTransforms (F := Multiplicative ℤ) (fun _ _ => none)
        (Multiplicative.ofAdd 1) [⟨"L", "j", true, 0⟩] ["L"] []
        (Multiplicative.ofAdd 1)
        (fun s => if s = "L" then some (Multiplicative.ofAdd 5) else none)).1 "L"
        = some (Multiplicative.ofAdd 2)
  ∧ some (Multiplicative.ofAdd (2 : ℤ)) ≠ some (Multiplicative.ofAdd (5 : ℤ)) := by
  refine ⟨rfl, by decide, by decide⟩

/-- **C3 (amended).** When the tree solver fails for a tracked link, the
error is reported and all other tracked links are still resolved and
stored; but the failing link's FrameMap entry is *not* left untouched: it
is overwritten with `cam_frame_` composed with the default-constructed
(unspecified) local frame. -/
theorem C3_amended_error_reported_entry_overwritten {F : Type} [Group F]
    (tree_solver : List ℚ → String → Option F) (dflt : F)
    (segs : List Segment) (pmm : List String) (jnt : List ℚ) (cam : F)
    (fm : FrameMap F) (seg seg' : Segment) (r' : F)
    (hnd : (segs.map Segment.name).Nodup)
    (hmem : seg ∈ segs) (ht : seg.name ∈ pmm)
    (hfail : tree_solver jnt seg.name = none)
    (hmem' : seg' ∈ segs) (ht' : seg'.name ∈ pmm)
    (hok : tree_solver jnt seg'.name = some r') :
    (ComputeLinkTransforms tree_solver dflt segs pmm jnt cam fm).1 seg.name
        = some (cam * dflt)
  ∧ seg.name ∈ (ComputeLinkTransforms tree_solver dflt segs pmm jnt cam fm).2
  ∧ (ComputeLinkTransforms tree_solver dflt segs pmm jnt cam fm).1 seg'.name
        = some (cam * r') := by
  refine ⟨?_, ?_, ?_⟩
  · rw [ComputeLinkTransforms,
      computeLinkTransformsGo_get_tracked tree_solver dflt pmm jnt cam segs _
        seg hmem hnd ht, hfail]
    rfl
  · exact computeLinkTransformsGo_error_reported tree_solver dflt pmm jnt cam
      segs _ seg hmem ht hfail
  · rw [ComputeLinkTransforms,
      computeLinkTransformsGo_get_tracked tree_solver dflt pmm jnt cam segs _
        seg' hmem' hnd ht', hok]
    rfl

/-- Witness for C3 (amended): solver fails on `"L"`, succeeds on `"M"`. -/
theorem C3_amended_error_reported_entry_overwritten_witness :
    (ComputeLinkTransforms (F := Multiplicative ℤ)
        (fun _ n => if n = "M" then some (Multiplicative.ofAdd 7) else none)
        (Multiplicative.ofAdd 1)
        [⟨"L", "j", true, 0⟩, ⟨"M", "k", true, 1⟩] ["L", "M"] []
        (Multiplicative.ofAdd 1) (fun _ => none)).1 "L"
        = some (Multiplicative.ofAdd 1 * Multiplicative.ofAdd 1)
  ∧ "L" ∈ (ComputeLinkTransforms (F := Multiplicative ℤ)
        (fun _ n => if n = "M" then some (Multiplicative.ofAdd 7) else none)
        (Multiplicative.ofAdd 1)
        [⟨"L", "j", true, 0⟩, ⟨"M", "k", true, 1⟩] ["L", "M"] []
        (Multiplicative.ofAdd 1) (fun _ => none)).2
  ∧ (ComputeLinkTransforms (F := Multiplicative ℤ)
        (fun _ n => if n = "M" then some (Multiplicative.ofAdd 7) else none)
        (Multiplicative.ofAdd 1)
        [⟨"L", "j", true, 0⟩, ⟨"M", "k", true, 1⟩] ["L", "M"] []
        (Multiplicative.ofAdd 1) (fun _ => none)).1 "M"
        = some (Multiplicative.ofAdd 1 * Multiplicative.ofAdd 7) :=
  C3_amended_error_reported_entry_overwritten
    (fun _ n => if n = "M" then some (Multiplicative.ofAdd 7) else none)
    (Multiplicative.ofAdd 1)
    [⟨"L", "j", true, 0⟩, ⟨"M", "k", true, 1⟩] ["L", "M"] []
    (Multiplicative.ofAdd 1) (fun _ => none)
    ⟨"L", "j", true, 0⟩ ⟨"M", "k", true, 1⟩ (Multiplicative.ofAdd 7)
    (by decide) (by decide) (by decide) rfl (by decide) (by decide) rfl

/-- **C4.** For every sparse joint-state update, each entry whose name has
no index in the JointIndex is reported — identifying the failing input
position and name — and skipped without aborting the update, and every
entry whose name does have an index still takes effect (the value written
at its index survives unless a later entry resolves to the same index). -/
theorem C4_unknown_joint_reported_valid_applied
    (jm : List String) (n : Nat) (g : Nat → ℚ) (update : List (String × ℚ)) :
    (GetInitialJoints jm n g update).2
      = (enumFromQ 0 update).filterMap (fun e =>
          if GetJointIndex jm e.2.1 < 0 then some ⟨e.1, e.2.1⟩ else none)
  ∧ ∀ (u₁ : List (String × ℚ)) (name : String) (val : ℚ)
      (u₂ : List (String × ℚ)),
      update = u₁ ++ (name, val) :: u₂ →
      0 ≤ GetJointIndex jm name →
      jm.length = n →
      (∀ e ∈ u₂, 0 ≤ GetJointIndex jm e.1 →
        (GetJointIndex jm e.1).toNat ≠ (GetJointIndex jm name).toNat) →
      (GetInitialJoints jm n g update).1.get? (GetJointIndex jm name).toNat
        = some val := by
  constructor
  · exact getInitialJointsGo_errors jm update 0 _
  · intro u₁ name val u₂ hu hidx hn hlater
    rw [hu, GetInitialJoints]
    refine getInitialJointsGo_get_written jm u₁ 0 name val u₂ _ hidx ?_ hlater
    rw [List.length_map, List.length_range]
    exact hn ▸ getJointIndex_toNat_lt jm name hidx

/-- Witness for C4: an update with one unknown name (`"zz"`, at position 1)
among valid names `"a"` and `"b"` reports exactly that one error and
applies both valid entries. -/
theorem C4_unknown_joint_reported_valid_applied_witness :
    (GetInitialJoints ["a", "b", "c"] 3 (fun _ => 0)
        [("a", 1), ("zz", 5), ("b", 2)]).2 = [⟨1, "zz"⟩]
  ∧ (GetInitialJoints ["a", "b", "c"] 3 (fun _ => 0)
        [("a", 1), ("zz", 5), ("b", 2)]).1 = [1, 2, 0]
  ∧ (GetInitialJoints ["a", "b", "c"] 3 (fun _ => 0)
        [("a", 1), ("zz", 5), ("b", 2)]).1.get?
        (GetJointIndex ["a", "b", "c"] "a").toNat = some 1 := by
  refine ⟨?_, by decide, ?_⟩
  · rw [(C4_unknown_joint_reported_valid_applied ["a", "b", "c"] 3 (fun _ => 0)
      [("a", 1), ("zz", 5), ("b", 2)]).1]
    decide
  · exact (C4_unknown_joint_reported_valid_applied ["a", "b", "c"] 3
      (fun _ => 0) [("a", 1), ("zz", 5), ("b", 2)]).2
      [] "a" 1 [("zz", 5), ("b", 2)] rfl (by decide) (by decide) (by decide)

/-- **C5.** Code-bug evidence.  The claim says the per-call chain-state
extraction fails rather than reading a dense-vector position out of range
when a movable chain joint is missing from the JointIndex.  The code
(`SetCameraTransform`) instead logs `"Joint in chain not in JointState.
This should never happen."` and then executes
`chain_jnt_array(j) = jnt_array_(location - joint_map_.begin())` anyway;
with `joint_map_ = ["a", "b"]` and a chain joint named `"phantom"`,
`location - begin = 2 = joint_map_.size()` and the read
`jnt_array_(2)` is one past the end of the dense vector (the `none` below
marks the out-of-range access). -/
theorem C5_chain_extraction_reads_out_of_range :
    GetJointIndex ["a", "b"] "phantom" = -1
  ∧ (["a", "b"] : List String).findIdx (fun x => x = "phantom") = 2
  ∧ chainReads [⟨"cam_seg", "phantom", false, 0⟩] ["a", "b"] [0, 0] = [none] := by
  refine ⟨by decide, by decide, by decide⟩

/-- **C6 (counterexample).** The claim that the parent walk stops at the
first ancestor that is the root *or* a mesh-bearing segment, recording that
ancestor's name, is false: for leaf `"L"` whose parent `"P"` carries a
recognised `.stl` mesh below a mesh-less root, the claim predicts key
`"P"`, but the loop's only exit is the global root, the root has no mesh,
and nothing at all is recorded. -/
theorem C6_counterexample_mesh_ancestor_not_key :
    GetPartMeshPaths [baseLink, meshMid, leafLink] "base" = some ([], [])
  ∧ "P" ∉ ((GetPartMeshPaths [baseLink, meshMid, leafLink] "base").getD
      ([], [])).2 := by
  refine ⟨by decide, by decide⟩

/-- **C6 (amended).** The walk ascends parent pointers until the global
root only (the mesh test is applied to the walk's end point, never to
intermediate ancestors), so every key recorded in `part_mesh_map_` is the
global root's name, and a link is included only when the root itself
carries a mesh with a recognised extension. -/
theorem C6_amended_every_key_is_root (links : List UrdfLinkT)
    (globalRoot : String) (r : List String × List String)
    (h : GetPartMeshPaths links globalRoot = some r) :
    r.2.all (fun k => k == globalRoot) = true := by
  rw [List.all_eq_true]
  intro k hk
  exact beq_iff_eq.mpr
    (getPartMeshPathsGo_keys globalRoot links ([], []) r h (by simp) k hk)

/-- Witness for C6 (amended): with the mesh on the root, both links are
recorded under the root's name. -/
theorem C6_amended_every_key_is_root_witness :
    ((["m.stl", "m.stl"], ["base", "base"]) :
        List String × List String).2.all (fun k => k == "base") = true :=
  C6_amended_every_key_is_root [meshRoot, meshChild] "base"
    (["m.stl", "m.stl"], ["base", "base"]) (by decide)

/-- **C7 (counterexample).** The claim that a disconnected link is silently
excluded is false: for a link whose parent chain ends at a parentless
non-root link, the walk dereferences a null parent pointer (undefined
behaviour, modelled as overall failure `none`), which is not the silent
exclusion `some ([], [])`. -/
theorem C7_counterexample_disconnected_not_silent :
    GetPartMeshPaths [strandedLink] "base" = none
  ∧ (none : Option (List String × List String)) ≠ some ([], []) := by
  refine ⟨by decide, by decide⟩

/-- **C7 (amended).** Link selection terminates for every topology (the
URDF parent structure is a finite tree, so the walk is structurally
recursive), and every link whose parent chain reaches the global root walks
successfully; but a link whose chain never reaches the root triggers a
null-parent dereference rather than being silently excluded. -/
theorem C7_amended_connected_walk_succeeds (globalRoot : String)
    (l : UrdfLinkT) (h : reachesRoot globalRoot l = true) :
    (walkToRoot globalRoot l).isSome = true :=
  walkToRoot_of_reachesRoot globalRoot l h

/-- Witness for C7 (amended): the leaf of the three-link chain reaches the
root and its walk succeeds. -/
theorem C7_amended_connected_walk_succeeds_witness :
    (walkToRoot "base" leafLink).isSome = true :=
  C7_amended_connected_walk_succeeds "base" leafLink (by decide)

/-- **C8.** After construction the JointIndex is a bijection: its
cardinality equals the number of non-fixed (non-`None`) joints in the
topology, and for every index `i` in range, looking up index `i`'s joint
name with `GetJointIndex` yields `i` again.  The hypotheses record what KDL
and URDF guarantee for the constructor's input: distinct segment-map
entries; every non-`None` KDL joint resolves in the URDF model, under its
own name, to a movable joint; `q_nr` values of non-`None` segments are
distinct and exactly cover `[0, n)`; joint names of distinct non-`None`
segments are distinct.  (The index never changes afterwards: no operation
of the class writes `joint_map_` after construction.) -/
theorem C8_joint_index_bijection (getJoint : String → Option UrdfJoint)
    (segs : List Segment) (n : Nat) (jm : List String)
    (hjm : buildJointMap getJoint segs n = some jm)
    (hname : ∀ x j, getJoint x = some j → j.name = x)
    (hsegnd : segs.Nodup)
    (hres : ∀ s ∈ segs, s.jointIsNone = false →
      ∃ j, getJoint s.jointName = some j ∧ movableUrdf j.jtype = true)
    (hq : ∀ s ∈ segs, s.jointIsNone = false → s.q_nr < n)
    (hqinj : ∀ s ∈ segs, ∀ t ∈ segs, s.jointIsNone = false →
      t.jointIsNone = false → s.q_nr = t.q_nr → s = t)
    (hninj : ∀ s ∈ segs, ∀ t ∈ segs, s.jointIsNone = false →
      t.jointIsNone = false → s.jointName = t.jointName → s = t)
    (hcov : ∀ i, i < n → ∃ s ∈ segs, s.jointIsNone = false ∧ s.q_nr = i) :
    jm.length = n
  ∧ (segs.filter (fun s => !s.jointIsNone)).length = n
  ∧ ∀ (i : Nat) (h : i < jm.length), GetJointIndex jm (jm.get ⟨i, h⟩) = i := by
  have hlen : jm.length = n := by
    have := buildJointMapGo_length getJoint segs _ jm hjm
    simpa using this
  have hw2 : ∀ s : Segment, writesEntry getJoint s = true →
      s.jointIsNone = false := by
    intro s hs
    rw [writesEntry] at hs
    simpa using ((Bool.and_eq_true _ _).mp hs).1
  have hw1 : ∀ s ∈ segs, s.jointIsNone = false →
      writesEntry getJoint s = true := by
    intro s hs hn
    obtain ⟨j, hj, hmv⟩ := hres s hs hn
    rw [writesEntry, hj]
    simp [hn, hmv]
  have hentry : ∀ i, i < n → ∃ s, s ∈ segs ∧ s.jointIsNone = false ∧
      s.q_nr = i ∧ jm.get? i = some s.jointName := by
    intro i hi
    obtain ⟨s, hsmem, hsn, hsq⟩ := hcov i hi
    refine ⟨s, hsmem, hsn, hsq, ?_⟩
    rw [← hsq]
    exact buildJointMapGo_get_written getJoint hname segs _ jm s hjm hsegnd
      hsmem (hw1 s hsmem hsn)
      (fun t ht htw he => hqinj t ht s hsmem (hw2 t htw) hsn he)
      (by simpa using hq s hsmem hsn)
  have hinj : ∀ (i j : Fin jm.length), jm.get i = jm.get j → i = j := by
    intro i j he
    obtain ⟨si, hsimem, hsin, hsiq, hsig⟩ := hentry i.1 (hlen ▸ i.2)
    obtain ⟨sj, hsjmem, hsjn, hsjq, hsjg⟩ := hentry j.1 (hlen ▸ j.2)
    rw [List.get?_eq_get i.2] at hsig
    rw [List.get?_eq_get j.2] at hsjg
    have hgi : jm.get i = si.jointName := Option.some.inj hsig
    have hgj : jm.get j = sj.jointName := Option.some.inj hsjg
    have hnames : si.jointName = sj.jointName := by rw [← hgi, ← hgj, he]
    have hss : si = sj := hninj si hsimem sj hsjmem hsin hsjn hnames
    apply Fin.ext
    rw [← hsiq, ← hsjq, hss]
  have hnodup : jm.Nodup := List.nodup_iff_injective_get.mpr hinj
  refine ⟨hlen, ?_, getJointIndex_get jm hnodup⟩
  have hqmem : ∀ s ∈ segs.filter (fun s => !s.jointIsNone),
      s ∈ segs ∧ s.jointIsNone = false := by
    intro s hs
    have := List.mem_filter.mp hs
    exact ⟨this.1, by simpa using this.2⟩
  have hqnd : (segs.filter (fun s => !s.jointIsNone)).Nodup :=
    hsegnd.filter _
  have hmapnd : ((segs.filter (fun s => !s.jointIsNone)).map
      Segment.q_nr).Nodup := by
    refine List.Nodup.map_on ?_ hqnd
    intro x hx y hy hxy
    exact hqinj x (hqmem x hx).1 y (hqmem y hy).1 (hqmem x hx).2
      (hqmem y hy).2 hxy
  have hsetEq : ((segs.filter (fun s => !s.jointIsNone)).map
      Segment.q_nr).toFinset = Finset.range n := by
    ext i
    simp only [List.mem_toFinset, List.mem_map, Finset.mem_range]
    constructor
    · rintro ⟨s, hs, rfl⟩
      exact hq s (hqmem s hs).1 (hqmem s hs).2
    · intro hi
      obtain ⟨s, hsmem, hsn, hsq⟩ := hcov i hi
      exact ⟨s, List.mem_filter.mpr ⟨hsmem, by simp [hsn]⟩, hsq⟩
  have h1 := List.toFinset_card_of_nodup hmapnd
  rw [hsetEq, Finset.card_range, List.length_map] at h1
  exact h1.symm

/-- Witness for C8 on the two-joint demo topology. -/
theorem C8_joint_index_bijection_witness :
    (["j0", "j1"] : List String).length = 2
  ∧ (demoSegs.filter (fun s => !s.jointIsNone)).length = 2
  ∧ GetJointIndex ["j0", "j1"] "j0" = 0
  ∧ GetJointIndex ["j0", "j1"] "j1" = 1 := by
  have hname : ∀ x j, demoGetJoint x = some j → j.name = x := by
    intro x j hj
    rw [demoGetJoint] at hj
    by_cases h0 : x = "j0"
    · rw [if_pos h0] at hj
      cases hj
      exact h0.symm
    · rw [if_neg h0] at hj
      by_cases h1 : x = "j1"
      · rw [if_pos h1] at hj
        cases hj
        exact h1.symm
      · rw [if_neg h1] at hj
        cases hj
  have hres : ∀ s ∈ demoSegs, s.jointIsNone = false →
      ∃ j, demoGetJoint s.jointName = some j ∧ movableUrdf j.jtype = true := by
    intro s hs hn
    rw [demoSegs] at hs
    simp only [List.mem_cons, List.not_mem_nil, or_false] at hs
    rcases hs with rfl | rfl | rfl
    · exact ⟨⟨"j0", UrdfJointType.revolute⟩, rfl, rfl⟩
    · exact ⟨⟨"j1", UrdfJointType.prismatic⟩, rfl, rfl⟩
    · cases hn
  have hcov : ∀ i, i < 2 → ∃ s ∈ demoSegs, s.jointIsNone = false ∧
      s.q_nr = i := by
    intro i hi
    interval_cases i
    · exact ⟨⟨"seg0", "j0", false, 0⟩, by decide, by decide, by decide⟩
    · exact ⟨⟨"seg1", "j1", false, 1⟩, by decide, by decide, by decide⟩
  have h := C8_joint_index_bijection demoGetJoint demoSegs 2 ["j0", "j1"]
    (by decide) hname (by decide) hres (by decide) (by decide) (by decide) hcov
  exact ⟨h.1, h.2.1, h.2.2 0 (by decide), h.2.2 1 (by decide)⟩

/-- **C9 (counterexample).** The claim that the transforms delivered to the
rendering collaborator are index-aligned with the mesh-path list is false:
selection on the mesh-on-root topology yields two mesh paths, but a
resolution call returns the caller's vector unchanged (the out-parameter is
taken by value), so zero transforms are delivered — no alignment with the
two-entry path list is possible. -/
theorem C9_counterexample_no_aligned_delivery :
    GetPartMeshPaths [meshRoot, meshChild] "base"
        = some (["m.stl", "m.stl"], ["base", "base"])
  ∧ (GetTransformsRun (F := Multiplicative ℤ) (fun _ _ => some 1)
        (fun _ => 1) (fun _ => 0) 1 1
        ⟨[⟨"base", "j0", false, 0⟩], ["j0"], ["base", "base"], [], [], 1,
          fun _ => none⟩ [] []).2.1 = []
  ∧ ([] : List (Multiplicative ℤ)).length
      ≠ (["m.stl", "m.stl"] : List String).length := by
  refine ⟨by decide, rfl, by decide⟩

/-- **C9 (amended).** A resolution call computes transforms only into a
local copy of the by-value out-parameter: the caller's vector is returned
unchanged, and the (discarded) local copy consists of the copied-in caller
contents followed by one transform per tracked `segment_map_` entry, in
`segment_map_` iteration order — not in mesh-path order, and with one entry
per distinct tracked name rather than one per mesh path. -/
theorem C9_amended_local_copy_segment_order {F : Type} [Group F]
    (tree_solver : List ℚ → String → Option F)
    (chainSolve : List (Option ℚ) → F) (g : Nat → ℚ) (dflt mapDflt : F)
    (st : RobotStateM F) (update : List (String × ℚ)) (callerVec : List F) :
    (GetTransformsRun tree_solver chainSolve g dflt mapDflt st update
        callerVec).2.1 = callerVec
  ∧ (GetTransformsRun tree_solver chainSolve g dflt mapDflt st update
        callerVec).2.2
      = callerVec ++ (st.segment_map.filter
          (fun s => decide (s.name ∈ st.part_mesh_map))).map
          (fun s => (((GetTransformsRun tree_solver chainSolve g dflt mapDflt
              st update callerVec).1.frame_map) s.name).getD mapDflt) := by
  exact ⟨rfl, getTransformsLocal_eq st.part_mesh_map _ mapDflt
    st.segment_map callerVec⟩

/-- **C10.** The transform-retrieval operation receives its output-vector
parameter by value (`std::vector<Eigen::Affine3d> current_tfs`, no
reference), so for every joint-state input and every initial contents of
the caller's vector, the caller's vector is unchanged after the call —
no computed transform is delivered through that parameter. -/
theorem C10_out_param_taken_by_value {F : Type} [Group F]
    (tree_solver : List ℚ → String → Option F)
    (chainSolve : List (Option ℚ) → F) (g : Nat → ℚ) (dflt mapDflt : F)
    (st : RobotStateM F) (update : List (String × ℚ)) (callerVec : List F) :
    (GetTransformsRun tree_solver chainSolve g dflt mapDflt st update
        callerVec).2.1 = callerVec := rfl

end RenderKinect
